import Mathlib

/-!
Verification development for the rest-client request core:
request parser factory, request controller (run / rerun / cancel),
response webview panel bookkeeping, and the spec-described selector,
variable resolver and request-variable cache.
-/

set_option autoImplicit false

namespace RestClient

/-! ## Request parser factory (src/models/requestParserFactory.ts) -/

/-- Whitespace character class of a JavaScript regular expression `\s`,
given by code points. -/
def isJsWs (c : Char) : Bool :=
  let n := c.toNat
  n = 0x20 || n = 0x09 || n = 0x0a || n = 0x0d || n = 0x0b || n = 0x0c ||
  n = 0xa0 || n = 0x1680 || (0x2000 ≤ n && n ≤ 0x200a) ||
  n = 0x2028 || n = 0x2029 || n = 0x202f || n = 0x205f || n = 0x3000 || n = 0xfeff

/-- Case-insensitive test that a character list starts with the four letters
of `curl` (the literal part of the factory's regular expression). -/
def startsWithCurlCI : List Char → Bool
  | c1 :: c2 :: c3 :: c4 :: _ =>
    (c1 = 'c' || c1 = 'C') && (c2 = 'u' || c2 = 'U') &&
    (c3 = 'r' || c3 = 'R') && (c4 = 'l' || c4 = 'L')
  | _ => false

/-- Matching of the anchored JavaScript regular expression `/^\s*curl/i`
against a text: at each position, either `curl` matches here or one more
whitespace character is consumed by `\s*`. -/
def curlRegexTest : List Char → Bool
  | [] => false
  | c :: cs => startsWithCurlCI (c :: cs) || (isJsWs c && curlRegexTest cs)

/-- Result of `RequestParserFactory.createRequestParser`: which of the two
parser variants is instantiated for a raw request text. -/
inductive ParserKind where
  | curl
  | http
  deriving DecidableEq

/-- Embedding of `RequestParserFactory.createRequestParser`: the curl parser
is chosen exactly when `curlRegex` tests true on the raw text. -/
def createRequestParser (rawHttpRequest : List Char) : ParserKind :=
  if curlRegexTest rawHttpRequest then ParserKind.curl else ParserKind.http

/-- Wording of the specification for claim C3: the text begins, after
optional leading whitespace, with the case-insensitive characters `curl`. -/
def specBeginsWithCurl (raw : List Char) : Bool :=
  startsWithCurlCI (raw.dropWhile isJsWs)

theorem startsWithCurlCI_false_of_ws (c : Char) (cs : List Char)
    (h : isJsWs c = true) : startsWithCurlCI (c :: cs) = false := by
  have h1 : c ≠ 'c' := by
    intro hh
    subst hh
    exact absurd h (by decide)
  have h2 : c ≠ 'C' := by
    intro hh
    subst hh
    exact absurd h (by decide)
  match cs with
  | [] => rfl
  | [_] => rfl
  | [_, _] => rfl
  | c2 :: c3 :: c4 :: rest => simp [startsWithCurlCI, h1, h2]

theorem curlRegexTest_eq_spec (raw : List Char) :
    curlRegexTest raw = specBeginsWithCurl raw := by
  induction raw with
  | nil => rfl
  | cons c cs ih =>
    cases hws : isJsWs c with
    | false =>
      simp [curlRegexTest, specBeginsWithCurl, List.dropWhile_cons, hws]
    | true =>
      simp [curlRegexTest, specBeginsWithCurl, List.dropWhile_cons, hws,
        startsWithCurlCI_false_of_ws c cs hws]
      simpa [specBeginsWithCurl] using ih

/-- C3: the factory selects the curl parser iff the raw text begins, after
optional leading whitespace, with the case-insensitive characters `curl`;
every other text is given to the plain HTTP parser. -/
theorem createRequestParser_curl_iff (raw : List Char) :
    (createRequestParser raw = ParserKind.curl ↔ specBeginsWithCurl raw = true) ∧
    (createRequestParser raw = ParserKind.http ↔ specBeginsWithCurl raw = false) := by
  unfold createRequestParser
  rw [curlRegexTest_eq_spec]
  cases h : specBeginsWithCurl raw <;> simp [h]

/-! ## Placeholder scanner and variable resolver

The `VariableResolver` component is not among the provided source files
(only the specification and callers describe it), so it is modelled from
the specification, section 4.4. -/

/-- Segment produced by the placeholder scanner: either a literal character
or the inner content of one top-level placeholder span. -/
inductive Seg where
  | lit (c : Char)
  | ph (content : List Char)
  deriving DecidableEq

/-- Modelled from the spec: single-pass balanced-brace scanner for
top-level placeholder spans (spec section 4.4). The state is `none`
outside a span, and `some (acc, nested)` inside a span with reversed
content `acc`, where `nested` records whether one internal brace level is
currently open (one level of internal nesting is permitted; deeper braces
are kept as literal content). An unterminated span is literal text. -/
def scanGo : List Char → Option (List Char × Bool) → List Seg
  | [], none => []
  | '{' :: '{' :: cs, none => scanGo cs (some ([], false))
  | c :: cs, none => Seg.lit c :: scanGo cs none
  | [], some (acc, _) => ('{' :: '{' :: acc.reverse).map Seg.lit
  | '}' :: '}' :: cs, some (acc, false) => Seg.ph acc.reverse :: scanGo cs none
  | '{' :: cs, some (acc, _) => scanGo cs (some ('{' :: acc, true))
  | '}' :: cs, some (acc, true) => scanGo cs (some ('}' :: acc, false))
  | c :: cs, some (acc, b) => scanGo cs (some (c :: acc, b))

/-- Scanning of a whole text for top-level placeholder spans. -/
def scan (cs : List Char) : List Seg :=
  scanGo cs none

/-- Raw source text of a placeholder span with the given content. -/
def rawOf (content : List Char) : List Char :=
  '{' :: '{' :: (content ++ ['}', '}'])

/-- Reconstruction of the source text from scanner segments. -/
def unparse : List Seg → List Char
  | [] => []
  | Seg.lit c :: rest => c :: unparse rest
  | Seg.ph content :: rest => rawOf content ++ unparse rest

/-- Raw text still pending inside a scanner state. -/
def pendingRaw : Option (List Char × Bool) → List Char
  | none => []
  | some (acc, _) => '{' :: '{' :: acc.reverse

theorem unparse_map_lit (l : List Char) : unparse (l.map Seg.lit) = l := by
  induction l with
  | nil => rfl
  | cons c cs ih => simp [unparse, ih]

theorem unparse_scanGo (cs : List Char) (st : Option (List Char × Bool)) :
    unparse (scanGo cs st) = pendingRaw st ++ cs := by
  induction cs, st using scanGo.induct with
  | case1 => rfl
  | case2 cs ih => simpa [scanGo, pendingRaw] using ih
  | case3 c cs h ih => simp [scanGo, pendingRaw, unparse, ih]
  | case4 acc b =>
    simp only [scanGo]
    rw [unparse_map_lit]
    simp [pendingRaw]
  | case5 cs acc ih => simp [scanGo, pendingRaw, unparse, rawOf, ih]
  | case6 cs acc b ih => simp [scanGo, pendingRaw, unparse, ih]
  | case7 cs acc ih => simp [scanGo, pendingRaw, unparse, ih]
  | case8 c cs acc b h1 h2 h3 ih => simp [scanGo, pendingRaw, unparse, ih]

/-- Round trip: the scanner's segments reconstruct the scanned text. -/
theorem unparse_scan (cs : List Char) : unparse (scan cs) = cs := by
  simpa [pendingRaw] using unparse_scanGo cs none

/-- Modelled from the spec: the variable name of a placeholder content
`variableName[.path][|fallback]`, with arguments after a space. -/
def refName (content : List Char) : List Char :=
  content.takeWhile (fun c => c != '.' && c != '|' && c != ' ')

/-- Modelled from the spec: resolution outcomes attached to a result
(spec sections 3 and 7). -/
inductive Issue where
  | unresolved (name : List Char)
  | circular (chain : List (List Char))
  | badArgument (name : List Char)
  deriving DecidableEq

/-- Modelled from the spec: resolution of a list of scanner segments
(spec section 4.4). `lookup` abstracts the ordered provider chain
(first provider recognising the name wins), `fuel` is the fixed maximum
recursion depth per top-level span, and `visited` is the per-chain list of
in-progress variable names (most recent first). A revisited name aborts
the span with a `circular` error reporting the full chain; an unknown
name keeps the literal placeholder text and records an `unresolved`
warning; a resolved value is scanned and resolved again at smaller
fuel. -/
def resolveSegs (lookup : List Char → Option (List Char)) :
    Nat → List (List Char) → List Seg → List Char × List Issue
  | fuel, visited, segs =>
    segs.foldr
      (fun seg r =>
        match seg with
        | Seg.lit c => (c :: r.1, r.2)
        | Seg.ph content =>
          let name := refName content
          if name ∈ visited then
            (rawOf content ++ r.1, Issue.circular (visited.reverse ++ [name]) :: r.2)
          else
            match lookup name with
            | none => (rawOf content ++ r.1, Issue.unresolved name :: r.2)
            | some val =>
              match fuel with
              | 0 => (val ++ r.1, r.2)
              | f + 1 =>
                let rv := resolveSegs lookup f (name :: visited) (scan val)
                (rv.1 ++ r.1, rv.2 ++ r.2))
      ([], [])
  termination_by structural fuel => fuel

/-- Resolution of one character text: scan it and resolve every span with
an empty in-progress chain. -/
def resolveChars (lookup : List Char → Option (List Char))
    (fuel : Nat) (cs : List Char) : List Char × List Issue :=
  resolveSegs lookup fuel [] (scan cs)

/-- Resolution of one string-valued field. -/
def resolveField (lookup : List Char → Option (List Char))
    (fuel : Nat) (s : String) : String × List Issue :=
  let r := resolveChars lookup fuel s.data
  (String.mk r.1, r.2)

/-- Modelled from the spec: unresolved request descriptor
(spec section 3), restricted to the string-valued parts resolution acts
on. -/
structure RequestDescriptor where
  method : String
  url : String
  headers : List (String × String)
  body : String
  name : Option String
  deriving DecidableEq

/-- Resolution of header values; keys are kept with original casing. -/
def resolveHeaders (lookup : List Char → Option (List Char)) (fuel : Nat) :
    List (String × String) → List (String × String) × List Issue
  | [] => ([], [])
  | (k, v) :: rest =>
    let r := resolveField lookup fuel v
    let rr := resolveHeaders lookup fuel rest
    ((k, r.1) :: rr.1, r.2 ++ rr.2)

/-- Modelled from the spec: `resolve(descriptor, providers, cacheSnapshot)
-> (resolvedDescriptor, list of warnings/errors)` over every string-valued
field (spec section 4.4). -/
def resolveDescriptor (lookup : List Char → Option (List Char))
    (fuel : Nat) (d : RequestDescriptor) : RequestDescriptor × List Issue :=
  let rm := resolveField lookup fuel d.method
  let ru := resolveField lookup fuel d.url
  let rh := resolveHeaders lookup fuel d.headers
  let rb := resolveField lookup fuel d.body
  ({ d with method := rm.1, url := ru.1, headers := rh.1, body := rb.1 },
   rm.2 ++ ru.2 ++ rh.2 ++ rb.2)

/-- Placeholder contents of a list of scanner segments. -/
def phsOf (segs : List Seg) : List (List Char) :=
  segs.filterMap fun s =>
    match s with
    | Seg.ph content => some content
    | Seg.lit _ => none

/-- Placeholder contents of every resolved field of a descriptor. -/
def descriptorPhs (d : RequestDescriptor) : List (List Char) :=
  phsOf (scan d.method.data) ++ phsOf (scan d.url.data) ++
  (d.headers.flatMap fun kv => phsOf (scan kv.2.data)) ++
  phsOf (scan d.body.data)

/-- Every placeholder remaining in the descriptor is one no provider
recognises: all recognisable placeholders have already been replaced. -/
def allPhsUnrecognized (lookup : List Char → Option (List Char))
    (d : RequestDescriptor) : Bool :=
  (descriptorPhs d).all fun c => (lookup (refName c)).isNone

/-- Two mutually-referring variables: `a` is defined as the placeholder
for `b` and `b` as the placeholder for `a`; no other name resolves. -/
def cycleLookup (a b : List Char) : List Char → Option (List Char) :=
  fun n => if n = a then some (rawOf b) else if n = b then some (rawOf a) else none

theorem resolveSegs_all_unrecognized (lookup : List Char → Option (List Char))
    (fuel : Nat) (segs : List Seg)
    (h : ∀ c ∈ phsOf segs, (lookup (refName c)).isNone = true) :
    resolveSegs lookup fuel [] segs =
      (unparse segs, (phsOf segs).map fun c => Issue.unresolved (refName c)) := by
  induction segs with
  | nil =>
    rw [resolveSegs.eq_1]
    simp [unparse, phsOf]
  | cons s rest ih =>
    have ih' := ih fun c hc => h c (by
      cases s <;> simp only [phsOf, List.filterMap_cons] at hc ⊢ <;>
        first
          | exact hc
          | exact List.mem_cons_of_mem _ hc)
    rw [resolveSegs.eq_1, List.foldr_cons, ← resolveSegs.eq_1, ih']
    cases s with
    | lit c => simp [unparse, phsOf]
    | ph content =>
      have hc : lookup (refName content) = none := by
        have := h content (by simp [phsOf])
        simpa [Option.isNone_iff_eq_none] using this
      simp [unparse, phsOf, hc]

theorem resolveChars_all_unrecognized (lookup : List Char → Option (List Char))
    (fuel : Nat) (cs : List Char)
    (h : ∀ c ∈ phsOf (scan cs), (lookup (refName c)).isNone = true) :
    resolveChars lookup fuel cs =
      (cs, (phsOf (scan cs)).map fun c => Issue.unresolved (refName c)) := by
  rw [resolveChars, resolveSegs_all_unrecognized lookup fuel _ h, unparse_scan]

theorem resolveField_all_unrecognized (lookup : List Char → Option (List Char))
    (fuel : Nat) (s : String)
    (h : ∀ c ∈ phsOf (scan s.data), (lookup (refName c)).isNone = true) :
    resolveField lookup fuel s =
      (s, (phsOf (scan s.data)).map fun c => Issue.unresolved (refName c)) := by
  rw [resolveField, resolveChars_all_unrecognized lookup fuel _ h]

theorem resolveHeaders_all_unrecognized (lookup : List Char → Option (List Char))
    (fuel : Nat) (hs : List (String × String))
    (h : ∀ c ∈ hs.flatMap (fun kv => phsOf (scan kv.2.data)),
      (lookup (refName c)).isNone = true) :
    resolveHeaders lookup fuel hs =
      (hs, (hs.flatMap fun kv => phsOf (scan kv.2.data)).map
        fun c => Issue.unresolved (refName c)) := by
  induction hs with
  | nil => simp [resolveHeaders]
  | cons kv rest ih =>
    have h1 : ∀ c ∈ phsOf (scan kv.2.data), (lookup (refName c)).isNone = true :=
      fun c hc => h c (by simp [List.flatMap_cons]; left; exact hc)
    have h2 := ih fun c hc => h c (by
      simp only [List.flatMap_cons, List.mem_append]
      right
      exact hc)
    simp [resolveHeaders, resolveField_all_unrecognized lookup fuel _ h1, h2]

theorem resolveSegs_cycle_inner (a b : List Char) (k : Nat) (hna : refName a = a) :
    resolveSegs (cycleLookup a b) (k + 1) [b, a] [Seg.ph a] =
      (rawOf a, [Issue.circular [a, b, a]]) := by
  rw [resolveSegs.eq_1]
  simp [hna]

theorem resolveSegs_cycle_middle (a b : List Char) (k : Nat)
    (hba : b ≠ a) (hnb : refName b = b)
    (hsa : scan (rawOf a) = [Seg.ph a]) (hna : refName a = a) :
    resolveSegs (cycleLookup a b) (k + 2) [a] [Seg.ph b] =
      (rawOf a, [Issue.circular [a, b, a]]) := by
  rw [resolveSegs.eq_1]
  simp [hnb, hba, cycleLookup, hsa, resolveSegs_cycle_inner a b k hna]

/-- Claim C6: for two mutually-referring variables (`a` defined as the
placeholder for `b`, `b` defined as the placeholder for `a`), the resolver
returns — it is a total function whose nested re-resolution is bounded by
the spec's fixed maximum recursion depth — and aborts the span with a
`CircularVariableReference` error identifying the full chain of names
`a, b, a`, for any depth budget of at least three. The hypotheses state
that `a` and `b` are distinct well-formed variable names: each scans as a
single placeholder and is its own reference name. -/
theorem resolveChars_mutual_cycle_circular (a b : List Char) (k : Nat)
    (hab : a ≠ b)
    (hsa : scan (rawOf a) = [Seg.ph a]) (hsb : scan (rawOf b) = [Seg.ph b])
    (hna : refName a = a) (hnb : refName b = b) :
    resolveChars (cycleLookup a b) (k + 3) (rawOf a) =
      (rawOf a, [Issue.circular [a, b, a]]) := by
  have hba : b ≠ a := fun h => hab h.symm
  unfold resolveChars
  rw [hsa, resolveSegs.eq_1]
  simp [hna, cycleLookup, hsb,
    resolveSegs_cycle_middle a b k hba hnb hsa hna]

/-- Witness for claim C6 at the concrete names `a` and `b` with the
smallest admissible depth budget. -/
theorem resolveChars_mutual_cycle_circular_witness :
    (['a'] : List Char) ≠ ['b'] ∧
    resolveChars (cycleLookup ['a'] ['b']) 3 (rawOf ['a']) =
      (rawOf ['a'], [Issue.circular [['a'], ['b'], ['a']]]) :=
  ⟨by decide,
    resolveChars_mutual_cycle_circular ['a'] ['b'] 0 (by decide) (by decide)
      (by decide) (by decide) (by decide)⟩

/-- Provider chain that recognises no variable name at all. -/
def lookupNone : List Char → Option (List Char) := fun _ => none

theorem resolveDescriptor_all_unrecognized
    (lookup : List Char → Option (List Char)) (fuel : Nat)
    (d : RequestDescriptor) (h : allPhsUnrecognized lookup d = true) :
    resolveDescriptor lookup fuel d =
      (d, (descriptorPhs d).map fun c => Issue.unresolved (refName c)) := by
  have hmem : ∀ c ∈ descriptorPhs d, (lookup (refName c)).isNone = true := by
    simpa [allPhsUnrecognized, List.all_eq_true] using h
  have hm : ∀ c ∈ phsOf (scan d.method.data), (lookup (refName c)).isNone = true :=
    fun c hc => hmem c (by simp [descriptorPhs, hc])
  have hu : ∀ c ∈ phsOf (scan d.url.data), (lookup (refName c)).isNone = true :=
    fun c hc => hmem c (by simp [descriptorPhs, hc])
  have hh : ∀ c ∈ d.headers.flatMap (fun kv => phsOf (scan kv.2.data)),
      (lookup (refName c)).isNone = true :=
    fun c hc => hmem c (by simp [descriptorPhs, hc])
  have hb : ∀ c ∈ phsOf (scan d.body.data), (lookup (refName c)).isNone = true :=
    fun c hc => hmem c (by simp [descriptorPhs, hc])
  simp only [resolveDescriptor,
    resolveField_all_unrecognized lookup fuel _ hm,
    resolveField_all_unrecognized lookup fuel _ hu,
    resolveHeaders_all_unrecognized lookup fuel _ hh,
    resolveField_all_unrecognized lookup fuel _ hb]
  simp [descriptorPhs]

/-- Claim C7 (amended): re-resolving a descriptor whose every remaining
placeholder is unrecognised by the providers (all recognisable ones
already replaced) returns the descriptor unchanged and produces no
errors; it re-issues an unresolved-variable warning per remaining
placeholder, so the result is entirely warning-free exactly when no
placeholder candidates remain. -/
theorem resolveDescriptor_resolved_noop
    (lookup : List Char → Option (List Char)) (fuel : Nat)
    (d : RequestDescriptor) (h : allPhsUnrecognized lookup d = true) :
    (resolveDescriptor lookup fuel d).1 = d ∧
    (∀ i ∈ (resolveDescriptor lookup fuel d).2, ∃ n, i = Issue.unresolved n) ∧
    (descriptorPhs d = [] → resolveDescriptor lookup fuel d = (d, [])) := by
  rw [resolveDescriptor_all_unrecognized lookup fuel d h]
  refine ⟨rfl, ?_, ?_⟩
  · intro i hi
    rcases List.mem_map.mp hi with ⟨c, _, rfl⟩
    exact ⟨refName c, rfl⟩
  · intro hph
    simp [hph]

/-- Fully resolved plain descriptor used as concrete input. -/
def dPlain : RequestDescriptor :=
  { method := "GET", url := "https://api/x", headers := [("Accept", "text/plain")],
    body := "", name := none }

/-- Witness for claim C7 (amended) at a concrete placeholder-free
descriptor. -/
theorem resolveDescriptor_resolved_noop_witness :
    allPhsUnrecognized lookupNone dPlain = true ∧
    resolveDescriptor lookupNone 5 dPlain = (dPlain, []) :=
  ⟨by decide,
    (resolveDescriptor_resolved_noop lookupNone 5 dPlain (by decide)).2.2 (by decide)⟩

/-- Descriptor left holding one placeholder that no provider recognises. -/
def dStale : RequestDescriptor :=
  { method := "GET",
    url := String.mk (rawOf ['d', 'o', 'e', 's', 'N', 'o', 't', 'E', 'x', 'i', 's', 't']),
    headers := [], body := "", name := none }

/-- Counterexample to claim C7 as stated: in `dStale` every recognisable
placeholder has been replaced (its only placeholder is recognised by no
provider), yet re-resolving is not free of new warnings — the result is
not the pair of the unchanged descriptor and an empty issue list, because
an unresolved-variable warning is issued again. -/
theorem resolveDescriptor_resolved_not_noop :
    allPhsUnrecognized lookupNone dStale = true ∧
    resolveDescriptor lookupNone 8 dStale ≠ (dStale, []) := by
  refine ⟨by decide, ?_⟩
  rw [resolveDescriptor_all_unrecognized lookupNone 8 dStale (by decide)]
  intro hcontra
  have h2 := congrArg Prod.snd hcontra
  simp only at h2
  have h3 : descriptorPhs dStale ≠ [] := by decide
  exact h3 (List.map_eq_nil_iff.mp h2)

/-! ## Selector

The `Selector` component is not among the provided source files (only
callers reference it), so it is modelled from the specification,
section 4.1. -/

/-- Modelled from the spec: a line marks a block boundary when, with
leading whitespace ignored, it starts with three hash marks. -/
def isBoundaryLine (l : String) : Bool :=
  match l.data.dropWhile Char.isWhitespace with
  | '#' :: '#' :: '#' :: _ => true
  | _ => false

/-- Modelled from the spec: a line consisting only of whitespace. -/
def isBlankLine (l : String) : Bool :=
  l.data.all Char.isWhitespace

/-- Modelled from the spec: a comment-prefixed (metadata) line, starting
with a hash mark or a double slash after leading whitespace. -/
def isCommentLine (l : String) : Bool :=
  match l.data.dropWhile Char.isWhitespace with
  | '#' :: _ => true
  | '/' :: '/' :: _ => true
  | _ => false

/-- Lines of a document text. -/
def linesOf (doc : String) : List String :=
  doc.splitOn "\n"

/-- Modelled from the spec: cut a line list at boundary lines. The text
before the first boundary (or the whole document when there is none) is
candidate block 0; every boundary line starts a new candidate block and
is itself consumed as the delimiter. -/
def splitCands : List String → List (List String)
  | [] => [[]]
  | l :: ls =>
    let r := splitCands ls
    if isBoundaryLine l then [] :: r
    else
      match r with
      | [] => [[l]]
      | b :: bs => (l :: b) :: bs

/-- Candidate blocks of a document. -/
def candidateBlocks (doc : String) : List (List String) :=
  splitCands (linesOf doc)

/-- Modelled from the spec: the body of a candidate block starts at the
first line that is neither blank nor a comment (metadata) line. -/
def bodyLines (b : List String) : List String :=
  b.dropWhile fun l => isBlankLine l || isCommentLine l

/-- A candidate block whose trimmed body is empty. -/
def bodyEmpty (b : List String) : Bool :=
  (bodyLines b).isEmpty

/-- Count of line-leading boundary marks in a document. -/
def boundaryCount (doc : String) : Nat :=
  (linesOf doc).countP isBoundaryLine

/-- Count of candidate blocks whose trimmed body is empty. -/
def emptyCount (doc : String) : Nat :=
  (candidateBlocks doc).countP bodyEmpty

namespace Selector

/-- Modelled from the spec: `split(documentText)` returns the ordered
candidate blocks, dropping those whose trimmed body is empty
(spec section 4.1). -/
def split (doc : String) : List (List String) :=
  (candidateBlocks doc).filter fun b => !(bodyEmpty b)

end Selector

theorem splitCands_ne_nil (ls : List String) : splitCands ls ≠ [] := by
  cases ls with
  | nil => simp [splitCands]
  | cons l ls =>
    simp only [splitCands]
    cases isBoundaryLine l <;> simp
    cases splitCands ls <;> simp

theorem splitCands_length (ls : List String) :
    (splitCands ls).length = ls.countP isBoundaryLine + 1 := by
  induction ls with
  | nil => simp [splitCands]
  | cons l ls ih =>
    simp only [splitCands]
    cases hb : isBoundaryLine l with
    | true => simp [List.countP_cons, hb, ih]
    | false =>
      cases hr : splitCands ls with
      | nil => exact absurd hr (splitCands_ne_nil ls)
      | cons b bs =>
        have := ih
        rw [hr] at this
        simp [List.countP_cons, hb]
        simpa using this

theorem countP_not_add_countP {α : Type} (p : α → Bool) (l : List α) :
    l.countP (fun a => !p a) + l.countP p = l.length := by
  induction l with
  | nil => simp
  | cons a l ih =>
    cases h : p a <;> simp [List.countP_cons, h] <;> omega

theorem length_filter_countP {α : Type} (p : α → Bool) (l : List α) :
    (l.filter p).length = l.countP p := by
  induction l with
  | nil => simp
  | cons a l ih =>
    cases h : p a <;> simp [List.filter_cons, List.countP_cons, h, ih]

/-- Claim C5: for every document text, the number of blocks returned by
the Selector's split is the number of line-leading boundary lines plus
one, minus the number of candidate blocks whose trimmed body is empty;
blocks with an empty trimmed body never appear in the output. -/
theorem selector_split_count (doc : String) :
    (Selector.split doc).length = boundaryCount doc + 1 - emptyCount doc ∧
    (Selector.split doc).length + emptyCount doc = boundaryCount doc + 1 ∧
    ∀ b ∈ Selector.split doc, bodyEmpty b = false := by
  have hlen : (Selector.split doc).length + emptyCount doc = boundaryCount doc + 1 := by
    have h1 : (candidateBlocks doc).length = boundaryCount doc + 1 :=
      splitCands_length (linesOf doc)
    have h2 := countP_not_add_countP bodyEmpty (candidateBlocks doc)
    unfold Selector.split emptyCount
    rw [length_filter_countP]
    omega
  refine ⟨by omega, hlen, ?_⟩
  intro b hb
  have := (List.mem_filter.mp hb).2
  simpa using this

/-! ## Request controller (src/controllers/requestController.ts)

`run`, `rerun`, `cancel` and `runCore` are embedded from the source.
The HTTP client, script runner, test runner, views and history are
external collaborators; their completed interactions during the awaits of
one `runCore` call are supplied by a `RunEnv` value, and the controller's
observable calls to them are recorded as an event trace. -/

/-- Received HTTP response (opaque payload). -/
structure Response where
  payload : Nat
  deriving DecidableEq

/-- Request object handed to `runCore`: identity, optional request name,
pre-request scripts and test scripts, as used by the controller. -/
structure HttpRequest where
  id : Nat
  name : Option String
  scripts : List String
  tests : Option String
  deriving DecidableEq

/-- Per-request settings tuple member (opaque to the claims). -/
structure Settings where
  deriving DecidableEq

/-- Modelled from the spec: `RequestVariableCache` — store of prior
responses keyed by `(documentIdentity, requestName)`, last-write-wins,
no versioning (spec section 3). The store itself is not among the
provided source files; only the controller's write call is. -/
def RequestVariableCache.add (cache : List ((Nat × String) × Response))
    (doc : Nat) (name : String) (response : Response) :
    List ((Nat × String) × Response) :=
  ((doc, name), response) :: cache

/-- Modelled from the spec: cache read, most recent write wins. -/
def RequestVariableCache.get (cache : List ((Nat × String) × Response))
    (doc : Nat) (name : String) : Option Response :=
  (cache.find? fun e => e.1 = (doc, name)).map fun e => e.2

/-- Controller state: the request-variable cache, the last pending
request (`_lastPendingRequest`), the last request/settings tuple
(`_lastRequestSettingTuple`) and the persisted history. -/
structure ControllerState where
  cache : List ((Nat × String) × Response)
  lastPending : Option Nat
  lastTuple : Option (HttpRequest × Settings)
  history : List Nat
  deriving DecidableEq

/-- Observable controller actions, in program order. -/
inductive Event where
  | statusPending
  | statusReceived (response : Response)
  | statusError
  | statusCancelled
  | flagSet (id : Nat)
  | scriptRun (idx : Nat)
  | sendStarted
  | responseArrived (response : Response)
  | cacheWrite (doc : Nat) (name : String) (response : Response)
  | testsRun
  | renderView (response : Response)
  | historyAdd (id : Nat)
  deriving DecidableEq

/-- Outcome of the external interactions awaited during one `runCore`
call: index of the first pre-request script whose execution throws (if
any), result of the HTTP send (`none` is a thrown transport error), the
value of the request's `isCancelled` flag at the post-await checks, and
the value of `_lastPendingRequest` observed by the `finally` block
(`none` here means it was not touched by interleaved runs, so it still
holds this request). -/
structure RunEnv where
  scriptFail : Option Nat
  sendResult : Option Response
  cancelledAtCheck : Bool
  pendingObserved : Option (Option Nat)

/-- Index of the first script that actually throws, if it exists. -/
def effFail (env : RunEnv) (req : HttpRequest) : Option Nat :=
  match env.scriptFail with
  | some i => if i < req.scripts.length then some i else none
  | none => none

/-- Entry effect of `runCore`: set the last pending request and the last
request/settings tuple. -/
def runCoreEntry (st : ControllerState) (req : HttpRequest)
    (settings : Settings) : ControllerState :=
  { st with lastPending := some req.id, lastTuple := some (req, settings) }

/-- Value of `_lastPendingRequest` seen by the `finally` block. -/
def pendingAtFinally (env : RunEnv) (req : HttpRequest) : Option Nat :=
  env.pendingObserved.getD (some req.id)

/-- The `finally` block: clear the pending request only when it still
refers to this very request. -/
def clearPending (req : HttpRequest) (observed : Option Nat) : Option Nat :=
  if observed = some req.id then none else observed

/-- Embedding of `RequestController.runCore`: status update to Pending;
entry bookkeeping; pre-request scripts run in order, aborting on the
first throw; the HTTP send; the post-send cancellation check (a cancelled
request causes an early return); status update, cache write for a named
request with a document, test execution, view rendering and history
persistence; on a thrown error the same cancellation check guards the
Error status update; the `finally` block clears the pending request iff
it still refers to this request. -/
def runCore (st : ControllerState) (req : HttpRequest) (settings : Settings)
    (document : Option Nat) (env : RunEnv) : ControllerState × List Event :=
  let entry := runCoreEntry st req settings
  let finalPending := clearPending req (pendingAtFinally env req)
  match effFail env req with
  | some i =>
    ({ entry with lastPending := finalPending },
     Event.statusPending :: (List.range (i + 1)).map Event.scriptRun ++
       (if env.cancelledAtCheck then [] else [Event.statusError]))
  | none =>
    let pre := Event.statusPending ::
      (List.range req.scripts.length).map Event.scriptRun ++ [Event.sendStarted]
    match env.sendResult with
    | none =>
      ({ entry with lastPending := finalPending },
       pre ++ (if env.cancelledAtCheck then [] else [Event.statusError]))
    | some response =>
      if env.cancelledAtCheck then
        ({ entry with lastPending := finalPending },
         pre ++ [Event.responseArrived response])
      else
        match req.name, document with
        | some nm, some doc =>
          ({ entry with
              cache := RequestVariableCache.add entry.cache doc nm response,
              history := req.id :: entry.history,
              lastPending := finalPending },
           pre ++ [Event.responseArrived response, Event.statusReceived response,
             Event.cacheWrite doc nm response, Event.testsRun,
             Event.renderView response, Event.historyAdd req.id])
        | _, _ =>
          ({ entry with
              history := req.id :: entry.history,
              lastPending := finalPending },
           pre ++ [Event.responseArrived response, Event.statusReceived response,
             Event.testsRun, Event.renderView response, Event.historyAdd req.id])

/-- Embedding of `RequestController.rerun`: replay the stored last
request/settings tuple through `runCore`, passing no document. -/
def rerun (st : ControllerState) (env : RunEnv) : ControllerState × List Event :=
  match st.lastTuple with
  | none => (st, [])
  | some (req, settings) => runCore st req settings none env

/-- Embedding of `RequestController.cancel`: set the cancellation flag on
the last pending request (when there is one) and update the status bar to
Cancelled. -/
def cancel (st : ControllerState) : ControllerState × List Event :=
  (st,
   (match st.lastPending with
    | some id => [Event.flagSet id]
    | none => []) ++ [Event.statusCancelled])

/-- Event observer: cache writes. -/
def isCacheWrite : Event → Bool
  | Event.cacheWrite _ _ _ => true
  | _ => false

/-- Event observer: pre-request script executions. -/
def isScriptRun : Event → Bool
  | Event.scriptRun _ => true
  | _ => false

/-- Empty controller state. -/
def st0 : ControllerState :=
  { cache := [], lastPending := none, lastTuple := none, history := [] }

/-- Default settings value. -/
def settings0 : Settings := {}

/-- Named request used as concrete input. -/
def reqR1 : HttpRequest := { id := 1, name := some "r1", scripts := [], tests := none }

/-- Two distinct responses. -/
def respA : Response := { payload := 0 }

/-- Second distinct response. -/
def respB : Response := { payload := 1 }

/-- Environment of an undisturbed successful execution receiving `r`. -/
def envOk (r : Response) : RunEnv :=
  { scriptFail := none, sendResult := some r, cancelledAtCheck := false,
    pendingObserved := none }

/-- Counterexample to claim C1 as stated: execute the named request `r1`
against document 0 receiving `respA`, then re-execute it via the
controller's rerun operation receiving the new response `respB`; the
cache entry for `r1` still holds `respA`, not the newly received
response, because rerun passes no document to `runCore` and the cache
write requires one. -/
theorem rerun_does_not_overwrite_cache :
    RequestVariableCache.get
      ((rerun (runCore st0 reqR1 settings0 (some 0) (envOk respA)).1
        (envOk respB)).1).cache 0 "r1" = some respA ∧
    respA ≠ respB := by
  constructor
  · decide
  · decide

/-- Claim C1 (amended): executing a named request through `runCore` with
its document overwrites that request's cache entry with the newly
received response, whatever the cache held before; the rerun operation,
which passes no document, never writes the cache, so after a rerun the
cache still holds the response stored by the last document-carrying
execution. -/
theorem runCore_overwrites_cache_rerun_does_not
    (st : ControllerState) (req : HttpRequest) (settings : Settings)
    (doc : Nat) (env : RunEnv) (resp : Response) (nm : String)
    (hs : effFail env req = none) (hr : env.sendResult = some resp)
    (hc : env.cancelledAtCheck = false) (hn : req.name = some nm) :
    RequestVariableCache.get
      (runCore st req settings (some doc) env).1.cache doc nm = some resp ∧
    ∀ (st2 : ControllerState) (env2 : RunEnv), (rerun st2 env2).1.cache = st2.cache := by
  constructor
  · simp [runCore, hs, hr, hc, hn, RequestVariableCache.add, RequestVariableCache.get,
      runCoreEntry, List.find?]
  · intro st2 env2
    match ht : st2.lastTuple with
    | none => simp [rerun, ht]
    | some (req2, settings2) =>
      simp only [rerun, ht]
      cases h1 : effFail env2 req2 with
      | some i => simp [runCore, h1, runCoreEntry]
      | none =>
        cases h2 : env2.sendResult with
        | none => simp [runCore, h1, h2, runCoreEntry]
        | some r2 =>
          cases h3 : env2.cancelledAtCheck with
          | true => simp [runCore, h1, h2, h3, runCoreEntry]
          | false =>
            cases hn2 : req2.name with
            | none => simp [runCore, h1, h2, h3, hn2, runCoreEntry]
            | some nm2 => simp [runCore, h1, h2, h3, hn2, runCoreEntry]

/-- Witness for claim C1 (amended) at concrete inputs. -/
theorem runCore_overwrites_cache_rerun_does_not_witness :
    RequestVariableCache.get
      (runCore st0 reqR1 settings0 (some 0) (envOk respA)).1.cache 0 "r1" = some respA ∧
    (rerun (runCore st0 reqR1 settings0 (some 0) (envOk respA)).1 (envOk respB)).1.cache =
      (runCore st0 reqR1 settings0 (some 0) (envOk respA)).1.cache :=
  ⟨(runCore_overwrites_cache_rerun_does_not st0 reqR1 settings0 0 (envOk respA) respA "r1"
      rfl rfl rfl rfl).1,
   (runCore_overwrites_cache_rerun_does_not st0 reqR1 settings0 0 (envOk respA) respA "r1"
      rfl rfl rfl rfl).2 _ (envOk respB)⟩

theorem countP_cacheWrite_scriptRuns (n : Nat) :
    ((List.range n).map Event.scriptRun).countP isCacheWrite = 0 := by
  rw [List.countP_eq_zero]
  intro e he
  rcases List.mem_map.mp he with ⟨i, _, rfl⟩
  simp [isCacheWrite]

theorem countP_cacheWrite_comp (n : Nat) :
    List.countP (isCacheWrite ∘ Event.scriptRun) (List.range n) = 0 := by
  rw [List.countP_eq_zero]
  intro i _
  simp [isCacheWrite, Function.comp]

/-- Claim C2: every execution writes at most one cache entry, a write
happens only after the response arrived (the trace decomposes with the
write strictly after the response-arrival event and no write before it),
the entry is keyed by the request's document and name, and no write
happens for a request without a name or without a document. -/
theorem runCore_cache_write_discipline
    (st : ControllerState) (req : HttpRequest) (settings : Settings)
    (document : Option Nat) (env : RunEnv) :
    ((runCore st req settings document env).2.countP isCacheWrite ≤ 1) ∧
    (∀ d nm r, Event.cacheWrite d nm r ∈ (runCore st req settings document env).2 →
      req.name = some nm ∧ document = some d ∧ env.sendResult = some r ∧
      env.cancelledAtCheck = false ∧
      ∃ t1 t2, (runCore st req settings document env).2 =
          t1 ++ Event.responseArrived r :: Event.statusReceived r ::
            Event.cacheWrite d nm r :: t2 ∧
        ∀ e ∈ t1, isCacheWrite e = false) := by
  cases h1 : effFail env req with
  | some i =>
    constructor
    · cases hc : env.cancelledAtCheck <;>
        simp [runCore, h1, hc, List.countP_append, List.countP_cons, isCacheWrite,
          countP_cacheWrite_scriptRuns, countP_cacheWrite_comp]
    · intro d nm r hmem
      cases hc : env.cancelledAtCheck <;>
        simp [runCore, h1, hc, List.mem_append, List.mem_map] at hmem
  | none =>
    cases h2 : env.sendResult with
    | none =>
      constructor
      · cases hc : env.cancelledAtCheck <;>
          simp [runCore, h1, h2, hc, List.countP_append, List.countP_cons, isCacheWrite,
            countP_cacheWrite_scriptRuns, countP_cacheWrite_comp]
      · intro d nm r hmem
        cases hc : env.cancelledAtCheck <;>
          simp [runCore, h1, h2, hc, List.mem_append, List.mem_map] at hmem
    | some resp =>
      cases hc : env.cancelledAtCheck with
      | true =>
        constructor
        · simp [runCore, h1, h2, hc, List.countP_append, List.countP_cons, isCacheWrite,
            countP_cacheWrite_scriptRuns, countP_cacheWrite_comp]
        · intro d nm r hmem
          simp [runCore, h1, h2, hc, List.mem_append, List.mem_map] at hmem
      | false =>
        cases hn : req.name with
        | none =>
          constructor
          · simp [runCore, h1, h2, hc, hn, List.countP_append, List.countP_cons,
              isCacheWrite, countP_cacheWrite_scriptRuns, countP_cacheWrite_comp]
          · intro d nm r hmem
            simp [runCore, h1, h2, hc, hn, List.mem_append, List.mem_map] at hmem
        | some nm0 =>
          cases hd : document with
          | none =>
            constructor
            · simp [runCore, h1, h2, hc, hn, hd, List.countP_append, List.countP_cons,
                isCacheWrite, countP_cacheWrite_scriptRuns, countP_cacheWrite_comp]
            · intro d nm r hmem
              simp [runCore, h1, h2, hc, hn, hd, List.mem_append, List.mem_map] at hmem
          | some d0 =>
            constructor
            · simp [runCore, h1, h2, hc, hn, hd, List.countP_append, List.countP_cons,
                isCacheWrite, countP_cacheWrite_scriptRuns, countP_cacheWrite_comp]
            · intro d nm r hmem
              simp only [runCore, h1, h2, hc, hn, hd] at hmem
              simp [List.mem_append, List.mem_cons, List.mem_map] at hmem
              obtain ⟨h4, h5, h6⟩ := hmem
              subst h4
              subst h5
              subst h6
              refine ⟨by simp [hn], by simp [hd], by simp [h2], rfl, ?_⟩
              refine ⟨Event.statusPending ::
                (List.range req.scripts.length).map Event.scriptRun ++ [Event.sendStarted],
                [Event.testsRun, Event.renderView r, Event.historyAdd req.id], ?_, ?_⟩
              · simp [runCore, h1, h2, hc, hn, hd]
              · intro e he
                simp [List.mem_cons, List.mem_append, List.mem_map] at he
                rcases he with rfl | ⟨⟨j, _, rfl⟩ | rfl⟩ <;> simp [isCacheWrite]

/-- Claim C4: cancellation is represented by a flag on the originating
request: the cancel operation changes no controller state and sets the
flag on exactly the last pending request; and a request whose cancel flag
is set when its send completes (successfully or with an error) triggers
no further observable action — no received or error status update, no
cache write, no test execution, no history entry, and the stored cache
and history are left untouched. -/
theorem cancel_flag_and_cancelled_silent
    (st : ControllerState) (req : HttpRequest) (settings : Settings)
    (document : Option Nat) (env : RunEnv)
    (hc : env.cancelledAtCheck = true) :
    ((cancel st).1 = st ∧
      ∀ i, (Event.flagSet i ∈ (cancel st).2 ↔ st.lastPending = some i)) ∧
    (∀ r, Event.statusReceived r ∉ (runCore st req settings document env).2) ∧
    (Event.statusError ∉ (runCore st req settings document env).2) ∧
    (∀ d nm r, Event.cacheWrite d nm r ∉ (runCore st req settings document env).2) ∧
    (Event.testsRun ∉ (runCore st req settings document env).2) ∧
    (∀ j, Event.historyAdd j ∉ (runCore st req settings document env).2) ∧
    (runCore st req settings document env).1.cache = st.cache ∧
    (runCore st req settings document env).1.history = st.history := by
  constructor
  · constructor
    · simp [cancel]
    · intro i
      cases hp : st.lastPending <;> simp [cancel, hp, eq_comm]
  · cases h1 : effFail env req with
    | some i =>
      refine ⟨?_, ?_, ?_, ?_, ?_, ?_, ?_⟩ <;>
        simp [runCore, h1, hc, runCoreEntry, List.mem_append, List.mem_map]
    | none =>
      cases h2 : env.sendResult with
      | none =>
        refine ⟨?_, ?_, ?_, ?_, ?_, ?_, ?_⟩ <;>
          simp [runCore, h1, h2, hc, runCoreEntry, List.mem_append, List.mem_map]
      | some r =>
        refine ⟨?_, ?_, ?_, ?_, ?_, ?_, ?_⟩ <;>
          simp [runCore, h1, h2, hc, runCoreEntry, List.mem_append, List.mem_map]

/-- Environment in which the request was cancelled before its send (or
failing script) completed. -/
def envCancelled : RunEnv :=
  { scriptFail := none, sendResult := some respA, cancelledAtCheck := true,
    pendingObserved := none }

/-- Witness for claim C4 at concrete inputs. -/
theorem cancel_flag_and_cancelled_silent_witness :
    (cancel st0).1 = st0 ∧
    Event.statusError ∉ (runCore st0 reqR1 settings0 (some 0) envCancelled).2 ∧
    Event.testsRun ∉ (runCore st0 reqR1 settings0 (some 0) envCancelled).2 ∧
    (runCore st0 reqR1 settings0 (some 0) envCancelled).1.cache = st0.cache :=
  ⟨(cancel_flag_and_cancelled_silent st0 reqR1 settings0 (some 0) envCancelled rfl).1.1,
   (cancel_flag_and_cancelled_silent st0 reqR1 settings0 (some 0) envCancelled rfl).2.2.1,
   (cancel_flag_and_cancelled_silent st0 reqR1 settings0 (some 0) envCancelled rfl).2.2.2.2.1,
   (cancel_flag_and_cancelled_silent st0 reqR1 settings0 (some 0) envCancelled rfl).2.2.2.2.2.2.1⟩

/-- Request carrying one pre-request script. -/
def reqScript : HttpRequest := { id := 2, name := none, scripts := ["boom"], tests := none }

/-- Environment in which the first script throws while the request's
cancel flag is already set. -/
def envScriptFailCancelled : RunEnv :=
  { scriptFail := some 0, sendResult := none, cancelledAtCheck := true,
    pendingObserved := none }

/-- Counterexample to claim C8 as stated: a request with a pre-request
script whose execution throws while the request's cancel flag is set —
the request is indeed never sent, but the status does not become Error,
because the cancellation check in the error handler returns first. -/
theorem script_throw_cancelled_no_error_status :
    reqScript.scripts ≠ [] ∧
    effFail envScriptFailCancelled reqScript = some 0 ∧
    Event.sendStarted ∉ (runCore st0 reqScript settings0 (some 0) envScriptFailCancelled).2 ∧
    Event.statusError ∉ (runCore st0 reqScript settings0 (some 0) envScriptFailCancelled).2 := by
  refine ⟨by decide, by decide, ?_, ?_⟩ <;> decide

/-- Number of scripts that actually start executing. -/
def numScriptsRun (env : RunEnv) (req : HttpRequest) : Nat :=
  match effFail env req with
  | some i => i + 1
  | none => req.scripts.length

theorem filter_comp_scriptRun (n : Nat) :
    (List.range n).filter (isScriptRun ∘ Event.scriptRun) = List.range n := by
  apply List.filter_eq_self.mpr
  intro i _
  simp [isScriptRun, Function.comp]

/-- Claim C8 (amended): pre-request scripts execute sequentially in list
order before any send — the script events of a run are exactly the
indices `0, 1, …` in order; when a script throws, the request is never
sent and the status becomes Error unless the request's cancel flag was
set when the failure was handled; when no script throws, the send starts
only after every script ran. -/
theorem runCore_scripts_sequential
    (st : ControllerState) (req : HttpRequest) (settings : Settings)
    (document : Option Nat) (env : RunEnv) :
    ((runCore st req settings document env).2.filter isScriptRun =
      (List.range (numScriptsRun env req)).map Event.scriptRun) ∧
    (∀ i, effFail env req = some i →
      Event.sendStarted ∉ (runCore st req settings document env).2 ∧
      (env.cancelledAtCheck = false →
        Event.statusError ∈ (runCore st req settings document env).2)) ∧
    (effFail env req = none → ∃ t2,
      (runCore st req settings document env).2 =
        Event.statusPending :: (List.range req.scripts.length).map Event.scriptRun ++
          Event.sendStarted :: t2) := by
  refine ⟨?_, ?_, ?_⟩
  · cases h1 : effFail env req with
    | some i =>
      cases hc : env.cancelledAtCheck <;>
        simp [runCore, h1, hc, numScriptsRun, isScriptRun, List.filter_append,
          List.filter_map, filter_comp_scriptRun]
    | none =>
      cases h2 : env.sendResult with
      | none =>
        cases hc : env.cancelledAtCheck <;>
          simp [runCore, h1, h2, hc, numScriptsRun, isScriptRun, List.filter_append,
            List.filter_map, filter_comp_scriptRun]
      | some r =>
        cases hc : env.cancelledAtCheck with
        | true =>
          simp [runCore, h1, h2, hc, numScriptsRun, isScriptRun, List.filter_append,
            List.filter_map, filter_comp_scriptRun]
        | false =>
          cases hn : req.name with
          | none =>
            simp [runCore, h1, h2, hc, hn, numScriptsRun, isScriptRun, List.filter_append,
              List.filter_map, filter_comp_scriptRun]
          | some nm =>
            cases hd : document <;>
              simp [runCore, h1, h2, hc, hn, numScriptsRun, isScriptRun, List.filter_append,
                List.filter_map, filter_comp_scriptRun]
  · intro i hi
    constructor
    · cases hc : env.cancelledAtCheck <;>
        simp [runCore, hi, hc, List.mem_append, List.mem_map]
    · intro hcf
      simp [runCore, hi, hcf, List.mem_append]
  · intro hnone
    cases h2 : env.sendResult with
    | none =>
      cases hc : env.cancelledAtCheck with
      | false => exact ⟨[Event.statusError], by simp [runCore, hnone, h2, hc]⟩
      | true => exact ⟨[], by simp [runCore, hnone, h2, hc]⟩
    | some r =>
      cases hc : env.cancelledAtCheck with
      | true => exact ⟨[Event.responseArrived r], by simp [runCore, hnone, h2, hc]⟩
      | false =>
        cases hn : req.name with
        | none =>
          exact ⟨[Event.responseArrived r, Event.statusReceived r, Event.testsRun,
            Event.renderView r, Event.historyAdd req.id],
            by simp [runCore, hnone, h2, hc, hn]⟩
        | some nm =>
          cases hd : document with
          | none =>
            exact ⟨[Event.responseArrived r, Event.statusReceived r, Event.testsRun,
              Event.renderView r, Event.historyAdd req.id],
              by simp [runCore, hnone, h2, hc, hn, hd]⟩
          | some d =>
            exact ⟨[Event.responseArrived r, Event.statusReceived r,
              Event.cacheWrite d nm r, Event.testsRun, Event.renderView r,
              Event.historyAdd req.id],
              by simp [runCore, hnone, h2, hc, hn, hd]⟩

/-- Environment in which the only script throws and the request is not
cancelled. -/
def envScriptFail : RunEnv :=
  { scriptFail := some 0, sendResult := none, cancelledAtCheck := false,
    pendingObserved := none }

/-- Witness for claim C8 (amended) at concrete inputs. -/
theorem runCore_scripts_sequential_witness :
    (runCore st0 reqScript settings0 none envScriptFail).2.filter isScriptRun =
      (List.range (numScriptsRun envScriptFail reqScript)).map Event.scriptRun ∧
    Event.sendStarted ∉ (runCore st0 reqScript settings0 none envScriptFail).2 ∧
    Event.statusError ∈ (runCore st0 reqScript settings0 none envScriptFail).2 :=
  ⟨(runCore_scripts_sequential st0 reqScript settings0 none envScriptFail).1,
   ((runCore_scripts_sequential st0 reqScript settings0 none envScriptFail).2.1 0 rfl).1,
   ((runCore_scripts_sequential st0 reqScript settings0 none envScriptFail).2.1 0 rfl).2 rfl⟩

/-- Claim C9: the pending-request field is an invariant of every run —
`runCore` sets it to this request on entry, and on every exit path it is
cleared exactly when the value observed by the `finally` block still
refers to this request; a value overwritten by an interleaved run is kept
untouched. -/
theorem runCore_pending_invariant
    (st : ControllerState) (req : HttpRequest) (settings : Settings)
    (document : Option Nat) (env : RunEnv) :
    (runCoreEntry st req settings).lastPending = some req.id ∧
    (runCore st req settings document env).1.lastPending =
      clearPending req (pendingAtFinally env req) ∧
    (pendingAtFinally env req = some req.id →
      (runCore st req settings document env).1.lastPending = none) ∧
    (pendingAtFinally env req ≠ some req.id →
      (runCore st req settings document env).1.lastPending = pendingAtFinally env req) := by
  have hmain : (runCore st req settings document env).1.lastPending =
      clearPending req (pendingAtFinally env req) := by
    cases h1 : effFail env req with
    | some i => simp [runCore, h1]
    | none =>
      cases h2 : env.sendResult with
      | none => simp [runCore, h1, h2]
      | some r =>
        cases hc : env.cancelledAtCheck with
        | true => simp [runCore, h1, h2, hc]
        | false =>
          cases hn : req.name with
          | none => simp [runCore, h1, h2, hc, hn]
          | some nm => cases hd : document <;> simp [runCore, h1, h2, hc, hn]
  refine ⟨by simp [runCoreEntry], hmain, ?_, ?_⟩
  · intro h
    rw [hmain, clearPending, if_pos h]
  · intro h
    rw [hmain, clearPending, if_neg h]

/-- Witness for claim C9 at concrete inputs. -/
theorem runCore_pending_invariant_witness :
    (runCoreEntry st0 reqR1 settings0).lastPending = some reqR1.id ∧
    (runCore st0 reqR1 settings0 (some 0) (envOk respA)).1.lastPending = none :=
  ⟨(runCore_pending_invariant st0 reqR1 settings0 (some 0) (envOk respA)).1,
   (runCore_pending_invariant st0 reqR1 settings0 (some 0) (envOk respA)).2.2.1 rfl⟩

/-! ## Response webview (src/views/httpResponseWebview.ts)

Panels are identified by numbers; `panelResponses` models the
`Map<WebviewPanel, HttpResponse>` by an association list whose `set`
replaces the entry of an existing key. -/

/-- Webview bookkeeping state: the open-panel list `panels` of the base
webview, the per-panel stored responses, and the active panel. -/
structure WebviewState where
  panels : List Nat
  panelResponses : List (Nat × Response)
  activePanel : Option Nat
  deriving DecidableEq

/-- Key-replacing write into the panel-response map. -/
def respSet (m : List (Nat × Response)) (p : Nat) (r : Response) :
    List (Nat × Response) :=
  (p, r) :: m.filter fun e => e.1 != p

/-- Deletion from the panel-response map. -/
def respDelete (m : List (Nat × Response)) (p : Nat) : List (Nat × Response) :=
  m.filter fun e => e.1 != p

/-- Embedding of `HttpResponseWebview.render`: when
`showResponseInDifferentTab` is set or no panel is open, a fresh panel is
created and appended to the panel list; otherwise the most recent open
panel is reused. Either way the rendered response is stored for the used
panel and the panel becomes active. Returns the used panel. -/
def render (st : WebviewState) (response : Response)
    (showInDifferentTab : Bool) (fresh : Nat) : WebviewState × Nat :=
  match (if showInDifferentTab then none else st.panels.getLast?) with
  | none =>
    ({ panels := st.panels ++ [fresh],
       panelResponses := respSet st.panelResponses fresh response,
       activePanel := some fresh }, fresh)
  | some panel =>
    ({ panels := st.panels,
       panelResponses := respSet st.panelResponses panel response,
       activePanel := some panel }, panel)

/-- Embedding of the `panel.onDidDispose` handler: reset the active panel
if it is the disposed one; remove the panel from the panel list and its
stored response when it is present; report (`true`) when the
all-panels-closed event fires, which the source does exactly when the
panel list is empty after the removal. -/
def disposePanel (st : WebviewState) (p : Nat) : WebviewState × Bool :=
  let active := if st.activePanel = some p then none else st.activePanel
  if p ∈ st.panels then
    let panels := st.panels.erase p
    ({ panels := panels,
       panelResponses := respDelete st.panelResponses p,
       activePanel := active },
     panels.isEmpty)
  else
    ({ st with activePanel := active }, st.panels.isEmpty)

/-- Invariant of the webview bookkeeping: every panel with a stored
response is in the open-panel list, and the open-panel list has no
duplicates. -/
def webviewInv (st : WebviewState) : Prop :=
  (∀ p r, (p, r) ∈ st.panelResponses → p ∈ st.panels) ∧ st.panels.Nodup

theorem getLast?_cases {α : Type} (l : List α) :
    l.getLast? = none ∧ l = [] ∨ ∃ a, l.getLast? = some a ∧ a ∈ l := by
  cases hl : l.getLast? with
  | none => exact Or.inl ⟨rfl, List.getLast?_eq_none_iff.mp hl⟩
  | some a =>
    right
    refine ⟨a, rfl, ?_⟩
    have hne : l ≠ [] := by
      rintro rfl
      simp at hl
    have h2 := List.getLast?_eq_getLast_of_ne_nil hne
    rw [hl] at h2
    have h3 : a = l.getLast hne := Option.some.inj h2
    rw [h3]
    exact List.getLast_mem hne

theorem webviewInv_create (st : WebviewState) (response : Response) (fresh : Nat)
    (hcont : ∀ p r, (p, r) ∈ st.panelResponses → p ∈ st.panels)
    (hnodup : st.panels.Nodup) (hfresh : fresh ∉ st.panels) :
    (∀ q r, (q, r) ∈ respSet st.panelResponses fresh response → q ∈ st.panels ++ [fresh]) ∧
    (st.panels ++ [fresh]).Nodup := by
  constructor
  · intro q r hq
    simp only [respSet, List.mem_cons, List.mem_filter] at hq
    rcases hq with hq | ⟨hq2, _⟩
    · obtain ⟨rfl, rfl⟩ : q = fresh ∧ r = response := by simpa [Prod.ext_iff] using hq
      simp
    · exact List.mem_append.mpr (Or.inl (hcont q r hq2))
  · rw [List.nodup_append]
    refine ⟨hnodup, List.nodup_singleton fresh, ?_⟩
    intro x hx hx2
    simp only [List.mem_singleton] at hx2
    subst hx2
    exact hfresh hx

theorem webviewInv_reuse (st : WebviewState) (response : Response) (a : Nat)
    (hcont : ∀ p r, (p, r) ∈ st.panelResponses → p ∈ st.panels)
    (ha : a ∈ st.panels) :
    ∀ q r, (q, r) ∈ respSet st.panelResponses a response → q ∈ st.panels := by
  intro q r hq
  simp only [respSet, List.mem_cons, List.mem_filter] at hq
  rcases hq with hq | ⟨hq2, _⟩
  · obtain ⟨rfl, rfl⟩ : q = a ∧ r = response := by simpa [Prod.ext_iff] using hq
    exact ha
  · exact hcont q r hq2

/-- Claim C10: rendering and disposal preserve the invariant that every
panel holding a stored response is in the open-panel list; render leaves
the used (possibly reused) panel in both structures; disposing an open
panel removes it from both, and the all-panels-closed event fires exactly
when that disposal empties the panel list; and with
`showResponseInDifferentTab` off and a panel open, render reuses the most
recent panel instead of creating one. -/
theorem webview_render_dispose_invariant
    (st : WebviewState) (response : Response) (diffTab : Bool)
    (fresh : Nat) (p : Nat) (hinv : webviewInv st) :
    (fresh ∉ st.panels → webviewInv (render st response diffTab fresh).1) ∧
    ((render st response diffTab fresh).2 ∈ (render st response diffTab fresh).1.panels ∧
      ((render st response diffTab fresh).2, response) ∈
        (render st response diffTab fresh).1.panelResponses) ∧
    webviewInv (disposePanel st p).1 ∧
    (p ∈ st.panels →
      p ∉ (disposePanel st p).1.panels ∧
      (∀ r, (p, r) ∉ (disposePanel st p).1.panelResponses) ∧
      ((disposePanel st p).2 = true ↔ st.panels = [p])) ∧
    (diffTab = false → st.panels ≠ [] →
      (render st response false fresh).1.panels = st.panels ∧
      st.panels.getLast? = some (render st response false fresh).2) := by
  obtain ⟨hcont, hnodup⟩ := hinv
  refine ⟨?_, ?_, ?_, ?_, ?_⟩
  · intro hfresh
    rcases getLast?_cases st.panels with ⟨hl, hnil⟩ | ⟨a, hl, ha⟩
    · cases diffTab <;>
        · simp only [render, hl, if_neg, if_pos, Bool.false_eq_true,
            not_false_eq_true, if_true, if_false]
          exact webviewInv_create st response fresh hcont hnodup hfresh
    · cases diffTab with
      | false =>
        simp only [render, hl, if_false, Bool.false_eq_true]
        exact ⟨webviewInv_reuse st response a hcont ha, hnodup⟩
      | true =>
        simp only [render, if_true]
        exact webviewInv_create st response fresh hcont hnodup hfresh
  · rcases getLast?_cases st.panels with ⟨hl, hnil⟩ | ⟨a, hl, ha⟩
    · cases diffTab <;> simp [render, hl, respSet]
    · cases diffTab <;> simp [render, hl, respSet, ha]
  · constructor
    · intro q r hq
      simp only [disposePanel] at hq ⊢
      by_cases hp : p ∈ st.panels
      · simp only [if_pos hp] at hq ⊢
        simp only [respDelete, List.mem_filter] at hq
        obtain ⟨hq2, hqp⟩ := hq
        have hqmem := hcont q r hq2
        have hne : q ≠ p := by simpa using hqp
        exact (List.mem_erase_of_ne hne).mpr hqmem
      · simp only [if_neg hp] at hq ⊢
        exact hcont q r hq
    · simp only [disposePanel]
      by_cases hp : p ∈ st.panels
      · simp only [if_pos hp]
        exact hnodup.erase p
      · simp only [if_neg hp]
        exact hnodup
  · intro hp
    refine ⟨?_, ?_, ?_⟩
    · simp only [disposePanel, if_pos hp]
      exact hnodup.not_mem_erase
    · intro r
      simp [disposePanel, if_pos hp, respDelete, List.mem_filter]
    · simp only [disposePanel, if_pos hp]
      constructor
      · intro hf
        have hnil : st.panels.erase p = [] := by
          simpa [List.isEmpty_iff] using hf
        have hl1 := List.length_erase_add_one hp
        have hlen : st.panels.length = 1 := by
          rw [hnil] at hl1
          simpa using hl1.symm
        rcases List.length_eq_one.mp hlen with ⟨a, hae⟩
        have hpa : p = a := by
          rw [hae] at hp
          simpa using hp
        rw [hae, hpa]
      · intro h
        rw [h]
        simp
  · intro hd hne
    rcases getLast?_cases st.panels with ⟨_, hnil⟩ | ⟨a, hl, _⟩
    · exact absurd hnil hne
    · simp [render, hl]

/-- Concrete webview state with one open panel holding a response. -/
def stW : WebviewState :=
  { panels := [7], panelResponses := [(7, respA)], activePanel := some 7 }

/-- Witness for claim C10 at a concrete one-panel state: disposing the
panel fires the all-panels-closed event exactly because the list becomes
empty, and rendering without `showResponseInDifferentTab` reuses the
open panel list unchanged. -/
theorem webview_render_dispose_invariant_witness :
    ((disposePanel stW 7).2 = true ↔ stW.panels = [7]) ∧
    (render stW respB false 9).1.panels = stW.panels :=
  have hW : webviewInv stW := by
    constructor
    · intro p r hp
      simp only [stW, List.mem_singleton] at hp ⊢
      simp [Prod.ext_iff] at hp
      simp [hp.1]
    · simp [stW]
  ⟨((webview_render_dispose_invariant stW respB false 9 7 hW).2.2.2.1
      (by simp [stW])).2.2,
   ((webview_render_dispose_invariant stW respB false 9 7 hW).2.2.2.2 rfl
      (by simp [stW])).1⟩

/-- Witness for claim C2 at concrete inputs: the successful named run
writes at most once, and membership of its cache-write event yields the
request's name. -/
theorem runCore_cache_write_discipline_witness :
    (runCore st0 reqR1 settings0 (some 0) (envOk respA)).2.countP isCacheWrite ≤ 1 ∧
    reqR1.name = some "r1" :=
  ⟨(runCore_cache_write_discipline st0 reqR1 settings0 (some 0) (envOk respA)).1,
   ((runCore_cache_write_discipline st0 reqR1 settings0 (some 0) (envOk respA)).2
      0 "r1" respA (by decide)).1⟩

/-- Witness for claim C3 at concrete raw texts. -/
theorem createRequestParser_curl_iff_witness :
    createRequestParser ('c' :: 'u' :: 'r' :: 'l' :: []) = ParserKind.curl ∧
    createRequestParser ('G' :: 'E' :: 'T' :: []) = ParserKind.http :=
  ⟨(createRequestParser_curl_iff ('c' :: 'u' :: 'r' :: 'l' :: [])).1.mpr (by decide),
   (createRequestParser_curl_iff ('G' :: 'E' :: 'T' :: [])).2.mpr (by decide)⟩

/-- Concrete document with three boundary lines and one empty candidate
block. -/
def docEx : String := "GET a\n###\nGET b\n###\n# only a comment\n###\nGET c"

/-- Witness for claim C5 at a concrete document. -/
theorem selector_split_count_witness :
    (Selector.split docEx).length + emptyCount docEx = boundaryCount docEx + 1 :=
  (selector_split_count docEx).2.1

end RestClient
